import Mathlib

/-!
Verification development for the bun-pty session engine front-end
(`src/terminal.ts`).  The TypeScript `Terminal` class is shallowly embedded:
its pure command-line assembly (`quoteArg`), its state (`_cols`, `_rows`,
`_closing`, `_readLoop`), its methods (`write`, `resize`, `kill`, the
constructor) and its polling read loop (`_startReadLoop`) become Lean
functions over explicit state, engine-call traces and fired-event lists.
The native Rust engine (`bun_pty_*`) is not part of the repository's
sources; where a claim depends on its behaviour it is modelled from the
specification and marked as such in its doc comment.
-/

/-! ## Argument quoting (src/terminal.ts, `quoteArg` inside the constructor)

The constructor builds a single command-line string:
`[file, ...args.map(quoteArg)].join(" ")`, where `quoteArg` wraps an
argument in single quotes, escaping embedded single quotes as the
four-character sequence apostrophe-backslash-apostrophe-apostrophe,
whenever the argument matches the regex
`/[\s'"$`\\!*?#&;|<>(){}[\]]/`, and passes it through unchanged otherwise.
Strings are modelled as `List Char`. -/

/-- One character of the `quoteArg` regex character class: JavaScript `\s`
(space, tab, line feed, vertical tab, form feed, carriage return, NBSP,
U+1680, U+2000..U+200A, U+2028, U+2029, U+202F, U+205F, U+3000, U+FEFF)
together with the listed quote and shell metacharacters. -/
def isSpecialChar (c : Char) : Bool :=
  c == ' ' || c == '\t' || c == '\n' || c == Char.ofNat 11 || c == Char.ofNat 12 ||
  c == '\r' || c == Char.ofNat 160 || c == Char.ofNat 5760 ||
  c == Char.ofNat 8192 || c == Char.ofNat 8193 || c == Char.ofNat 8194 ||
  c == Char.ofNat 8195 || c == Char.ofNat 8196 || c == Char.ofNat 8197 ||
  c == Char.ofNat 8198 || c == Char.ofNat 8199 || c == Char.ofNat 8200 ||
  c == Char.ofNat 8201 || c == Char.ofNat 8202 || c == Char.ofNat 8232 ||
  c == Char.ofNat 8233 || c == Char.ofNat 8239 || c == Char.ofNat 8287 ||
  c == Char.ofNat 12288 || c == Char.ofNat 65279 ||
  c == '\'' || c == '"' || c == '$' || c == Char.ofNat 96 || c == '\\' ||
  c == '!' || c == '*' || c == '?' || c == '#' || c == '&' || c == ';' ||
  c == '|' || c == '<' || c == '>' || c == '(' || c == ')' ||
  c == Char.ofNat 123 || c == Char.ofNat 125 || c == '[' || c == ']'

/-- `regex.test(arg)` of the source: does the argument contain a character
of the `quoteArg` character class? -/
def containsSpecial (s : List Char) : Bool := s.any isSpecialChar

/-- `arg.replace(/'/g, "'\\''")` of the source: every single quote is
replaced by the four characters apostrophe, backslash, apostrophe,
apostrophe. -/
def escapeQuotes : List Char → List Char
  | [] => []
  | c :: cs =>
    if c = '\'' then '\'' :: '\\' :: '\'' :: '\'' :: escapeQuotes cs
    else c :: escapeQuotes cs

/-- `quoteArg` of the source: wrap in single quotes (escaping embedded
single quotes) when the argument contains a special character, otherwise
pass it through unchanged. -/
def quoteArg (arg : List Char) : List Char :=
  if containsSpecial arg then '\'' :: (escapeQuotes arg ++ ['\''])
  else arg

/-- `[file, ...args.map(quoteArg)].join(" ")` of the source constructor. -/
def cmdlineOf (file : List Char) (args : List (List Char)) : List Char :=
  List.intercalate [' '] (file :: args.map quoteArg)

/-! ## POSIX shell word handling (external collaborator)

Modelled from the spec: §2 and §4.2 state the command line is handed to a
shell interpreter ("an opaque program invocation to execute through a
shell interpreter"), and §9 discusses the resulting quoting hazards.  The
shell itself is outside the repository, so the word-level processing it
applies to a simple command is modelled here: field splitting on unquoted
space, tab and newline; quote removal (single quotes protect everything
up to the closing quote, double quotes up to the closing double quote, an
unquoted backslash escapes the next character); and tilde expansion of a
field that begins with an unquoted tilde.  A tilde is NOT in the
`quoteArg` character class, so a tilde-initial argument reaches the shell
unquoted and is expanded.  The remaining expansions (variable, command,
arithmetic, pathname) each require a character that IS in the class and
therefore cannot occur unquoted in `quoteArg` output, while quoted
content is protected from them.  Command-position effects (reserved
words, variable-assignment prefixes), which concern how the shell
interprets the first word rather than the word-level value of the
argument words, are not modelled.  `none` marks an unterminated
quote. -/

/-- Scanner mode of the shell splitter: outside quotes, inside single
quotes, inside double quotes, or immediately after an unquoted
backslash. -/
inductive SMode where
  | norm
  | single
  | double
  | escNorm
  deriving DecidableEq

/-- Begin a field if none is open yet.  A field opened by a quote or a
backslash does not begin with an unquoted tilde, so it is not marked for
tilde expansion. -/
def startField : Option (List Char × Bool) → List Char × Bool
  | none => ([], false)
  | some wf => wf

/-- Append an unquoted ordinary character to the current field, opening
the field if necessary; a field whose first character is an unquoted
tilde is marked for tilde expansion. -/
def pushNorm : Option (List Char × Bool) → Char → List Char × Bool
  | none, c => ([c], c == '~')
  | some (w, b), c => (w ++ [c], b)

/-- Append a quoted or escaped character to the current field, opening
the field if necessary; such a character never marks the field for tilde
expansion. -/
def pushQuoted : Option (List Char × Bool) → Char → List Char × Bool
  | none, c => ([c], false)
  | some (w, b), c => (w ++ [c], b)

/-- One pass of shell field splitting and quote removal over the command
line; the accumulator holds the field assembled so far together with its
tilde-expansion mark, `none` when no field has been started. -/
def shellSplit : List Char → SMode → Option (List Char × Bool) →
    Option (List (List Char × Bool))
  | [], SMode.norm, none => some []
  | [], SMode.norm, some wf => some [wf]
  | [], SMode.single, _ => none
  | [], SMode.double, _ => none
  | [], SMode.escNorm, _ => none
  | c :: cs, SMode.norm, acc =>
    if c = ' ' ∨ c = '\t' ∨ c = '\n' then
      match acc with
      | none => shellSplit cs SMode.norm none
      | some wf => (shellSplit cs SMode.norm none).map (fun fs => wf :: fs)
    else if c = '\'' then shellSplit cs SMode.single (some (startField acc))
    else if c = '"' then shellSplit cs SMode.double (some (startField acc))
    else if c = '\\' then shellSplit cs SMode.escNorm (some (startField acc))
    else shellSplit cs SMode.norm (some (pushNorm acc c))
  | c :: cs, SMode.escNorm, acc => shellSplit cs SMode.norm (some (pushQuoted acc c))
  | c :: cs, SMode.single, acc =>
    if c = '\'' then shellSplit cs SMode.norm acc
    else shellSplit cs SMode.single (some (pushQuoted acc c))
  | c :: cs, SMode.double, acc =>
    if c = '"' then shellSplit cs SMode.norm acc
    else shellSplit cs SMode.double (some (pushQuoted acc c))

/-- POSIX tilde expansion of one word that begins with an unquoted tilde:
the tilde-prefix (the characters before the first slash) selects a home
directory — a bare `~` prefix is the current user's home `home`; a
`~user` prefix is looked up in `userHome`, the word being left unchanged
when the user is unknown — and is replaced by that directory. -/
def tildeExpand (home : List Char) (userHome : List Char → Option (List Char))
    (w : List Char) : List Char :=
  if w.takeWhile (fun c => ¬ c = '/') = ['~'] then
    home ++ w.dropWhile (fun c => ¬ c = '/')
  else
    match userHome ((w.takeWhile (fun c => ¬ c = '/')).drop 1) with
    | some d => d ++ w.dropWhile (fun c => ¬ c = '/')
    | none => w

/-- Apply tilde expansion to exactly the fields marked for it. -/
def expandField (home : List Char) (userHome : List Char → Option (List Char)) :
    List Char × Bool → List Char
  | (w, false) => w
  | (w, true) => tildeExpand home userHome w

/-- The words (program name and argument values) the spawned program
receives from a command line: field splitting, quote removal and tilde
expansion.  `home` is the current user's home directory and `userHome`
the per-user home lookup of the host system. -/
def shellWords (home : List Char) (userHome : List Char → Option (List Char))
    (s : List Char) : Option (List (List Char)) :=
  (shellSplit s SMode.norm none).map (List.map (expandField home userHome))

/-! ## The native engine (modelled from the spec)

The Rust `bun_pty_*` engine is consumed over FFI and its source is not in
the repository; only its FFI declarations appear in `src/terminal.ts`.
The two behaviours claims depend on are modelled from the spec. -/

/-- Modelled from the spec: the engine-side view of one session after the
repository's missing Rust engine has spawned it.  `childExited` is whether
the child process has terminated (after which `read` returns the -2
sentinel, §4.3), and `childExitStatus` is the termination status the OS
reported, which §4.5 and §6 require `bun_pty_get_exit_code` to return. -/
structure Engine where
  childExited : Bool
  childExitStatus : Int
  deriving DecidableEq

/-- Modelled from the spec: `bun_pty_get_exit_code` returns the "last
captured exit status" of the child (§6), i.e. the process's true
termination status, never a hardcoded default (§4.5). -/
def Engine.getExitCode (e : Engine) : Int := e.childExitStatus

/-- Modelled from the spec: the bytes `bun_pty_write` actually delivers to
the child's standard input.  §4.3: "a write attempted after the Session
has exited is a no-op, not an error". -/
def Engine.writeDelivered (e : Engine) (bytes : List Nat) : List Nat :=
  if e.childExited then [] else bytes

/-! ## The Terminal class state and methods (src/terminal.ts) -/

/-- Default option values of the source:
`export const DEFAULT_COLS = 80`. -/
def DEFAULT_COLS : Int := 80

/-- `export const DEFAULT_ROWS = 24` of the source. -/
def DEFAULT_ROWS : Int := 24

/-- `export const DEFAULT_FILE = "sh"` of the source. -/
def DEFAULT_FILE : String := "sh"

/-- `export const DEFAULT_NAME = "xterm"` of the source. -/
def DEFAULT_NAME : String := "xterm"

/-- The mutable fields of the `Terminal` class: `handle`, `_pid`, `_cols`,
`_rows`, `_readLoop`, `_closing` (the readonly `_name` is constant
`DEFAULT_NAME` and omitted). -/
structure Terminal where
  handle : Int
  pid : Int
  cols : Int
  rows : Int
  readLoop : Bool
  closing : Bool
  deriving DecidableEq

/-- One call into the native engine, as issued by the `Terminal` methods
through `lib.symbols`. -/
inductive EngineCall where
  | spawn (cmdline : List Char) (cwd : List Char) (cols rows : Int)
  | write (handle : Int) (bytes : List Nat) (len : Nat)
  | read (handle : Int)
  | resize (handle : Int) (cols rows : Int)
  | kill (handle : Int)
  | close (handle : Int)
  | getPid (handle : Int)
  | getExitCode (handle : Int)
  deriving DecidableEq

/-- One event fired on the class's emitters: `_onData.fire` with the byte
payload handed to the UTF-8 decoder (`buf.subarray(0, n).toString("utf8")`
decodes exactly these bytes), or `_onExit.fire` with its `exitCode` and
optional `signal` fields. -/
inductive Event where
  | data (payload : List Nat)
  | exit (exitCode : Int) (signal : Option String)
  deriving DecidableEq

/-- `IPtyForkOptions` as used by the constructor: `name`, and optional
`cols`, `rows`, `cwd` (`opts.cols ?? DEFAULT_COLS` etc.). -/
structure SpawnOpts where
  name : String
  cols : Option Int
  rows : Option Int
  cwd : Option (List Char)
  deriving DecidableEq

/-- The engine's responses during construction: the handle returned by
`bun_pty_spawn` and the pid `bun_pty_get_pid` would report. -/
structure SpawnEngine where
  spawnResult : Int
  pidResult : Int
  deriving DecidableEq

/-- Outcome of running the `Terminal` constructor: the thrown error or the
constructed instance, the engine calls issued, and whether
`_startReadLoop` was invoked. -/
structure CtorResult where
  outcome : Except String Terminal
  calls : List EngineCall
  loopStarted : Bool

/-- The `Terminal` constructor (src/terminal.ts:162-193): apply option
defaults, build the quoted command line, call `bun_pty_spawn`; on a
negative handle throw `PTY spawn failed` (before ever calling
`bun_pty_get_pid` or starting the read loop); otherwise fetch the pid and
start the read loop.  `fileArg`/`args` may be omitted in TS
(`file = DEFAULT_FILE`, `args = []`), modelled by `Option`/the list
itself; `processCwd` is the calling process's current working
directory (`process.cwd()`). -/
def Terminal.construct (eng : SpawnEngine) (processCwd : List Char)
    (fileArg : Option (List Char)) (args : List (List Char))
    (opts : SpawnOpts) : CtorResult :=
  let file := fileArg.getD DEFAULT_FILE.toList
  let cols := opts.cols.getD DEFAULT_COLS
  let rows := opts.rows.getD DEFAULT_ROWS
  let cwd := opts.cwd.getD processCwd
  let cmdline := cmdlineOf file args
  let h := eng.spawnResult
  if h < 0 then
    { outcome := Except.error "PTY spawn failed",
      calls := [EngineCall.spawn cmdline cwd cols rows],
      loopStarted := false }
  else
    { outcome := Except.ok
        { handle := h, pid := eng.pidResult, cols := cols, rows := rows,
          readLoop := true, closing := false },
      calls := [EngineCall.spawn cmdline cwd cols rows, EngineCall.getPid h],
      loopStarted := true }

/-- `Terminal.write` (src/terminal.ts:219-223): a no-op when `_closing`,
otherwise hand the UTF-8 bytes of `data` to `bun_pty_write` (whose
delivery is the spec-modelled `Engine.writeDelivered`; its return value is
ignored, so the call never throws).  Returns the unchanged state and the
bytes actually delivered to the child. -/
def Terminal.write (e : Engine) (data : List Nat) (t : Terminal) :
    Terminal × List Nat :=
  if t.closing then (t, [])
  else (t, e.writeDelivered data)

/-- `Terminal.resize` (src/terminal.ts:225-230): a no-op when `_closing`,
otherwise store `cols`/`rows` into `_cols`/`_rows` unconditionally and
call `bun_pty_resize`. -/
def Terminal.resize (cols rows : Int) (t : Terminal) :
    Terminal × List EngineCall :=
  if t.closing then (t, [])
  else ({ t with cols := cols, rows := rows },
        [EngineCall.resize t.handle cols rows])

/-- `Terminal.kill` (src/terminal.ts:232-238): a no-op when `_closing`,
otherwise set `_closing`, call `bun_pty_kill` and `bun_pty_close`, and
fire `_onExit` with `{ exitCode: 0, signal }`.  Returns the new state, the
engine calls issued, and the events fired. -/
def Terminal.kill (signal : String) (t : Terminal) :
    Terminal × List EngineCall × List Event :=
  if t.closing then (t, [], [])
  else ({ t with closing := true },
        [EngineCall.kill t.handle, EngineCall.close t.handle],
        [Event.exit 0 (some signal)])

/-! ## The read loop (src/terminal.ts, `_startReadLoop`, lines 242-265)

The loop owns a 4096-byte buffer and repeatedly calls `bun_pty_read`.
Each call is modelled as a `ReadStep`: the returned count `n` and the
bytes the engine wrote into the front of the buffer (per the spec §4.3,
`n > 0` means that many bytes were copied into the buffer).  The loop body
is, in source order: `n > 0` fire `_onData` with
`buf.subarray(0, n).toString("utf8")`; `n === -2` fetch
`bun_pty_get_exit_code`, fire `_onExit` with it, and break; `n < 0` break;
otherwise sleep 8 ms and poll again (the delay is timing and is not
modelled). -/

/-- One `bun_pty_read` call as the loop observes it: the returned `n` and
the bytes the engine placed at the start of the caller's buffer. -/
structure ReadStep where
  n : Int
  written : List Nat
  deriving DecidableEq

/-- The engine writing `w` into the front of buffer `buf`; bytes beyond
`w.length` keep their previous (stale) contents. -/
def writeBuf (w buf : List Nat) : List Nat := w ++ buf.drop w.length

/-- What one run of the read loop produced: events fired, engine calls
issued, the final buffer contents, and whether the loop terminated via
`break` (`stopped = true`) as opposed to still polling when the modelled
trace ran out. -/
structure LoopResult where
  events : List Event
  calls : List EngineCall
  buf : List Nat
  stopped : Bool
  deriving DecidableEq

/-- The read-loop body of `_startReadLoop` folded over a trace of engine
read results, starting from buffer `buf`.  `e` is the engine whose
`getExitCode` the `-2` branch consults, `h` the session handle. -/
def runLoop (e : Engine) (h : Int) : List ReadStep → List Nat → LoopResult
  | [], buf => { events := [], calls := [], buf := buf, stopped := false }
  | s :: rest, buf =>
    if 0 < s.n then
      let buf2 := writeBuf s.written buf
      let r := runLoop e h rest buf2
      { events := Event.data (buf2.take s.n.toNat) :: r.events,
        calls := EngineCall.read h :: r.calls,
        buf := r.buf, stopped := r.stopped }
    else if s.n = -2 then
      { events := [Event.exit e.getExitCode none],
        calls := [EngineCall.read h, EngineCall.getExitCode h],
        buf := buf, stopped := true }
    else if s.n < 0 then
      { events := [], calls := [EngineCall.read h], buf := buf, stopped := true }
    else
      let r := runLoop e h rest buf
      { events := r.events, calls := EngineCall.read h :: r.calls,
        buf := r.buf, stopped := r.stopped }

/-! ## Interleavings of the read loop with caller methods

The read loop is an `async` function: between its `await` points the
caller can invoke `kill()`.  A small scheduler runs one session, choosing
at each step either one read-loop iteration or a caller `kill()`. -/

/-- Whole-session state for interleaving runs: the `Terminal` fields, the
read results the engine will hand to subsequent `bun_pty_read` calls, the
events fired so far (in order), and whether the read-loop coroutine is
still running (it returns when the `while` condition fails or a branch
`break`s). -/
structure Sys where
  ts : Terminal
  pending : List ReadStep
  events : List Event
  loopLive : Bool
  deriving DecidableEq

/-- One scheduler action: an iteration of the read loop, or the caller
invoking `kill(signal)`. -/
inductive SchedAct where
  | loopIter
  | killCall (signal : String)
  deriving DecidableEq

/-- One iteration of `_startReadLoop`'s `while` loop: if the loop already
returned, nothing happens; if the `while` condition
`this._readLoop && !this._closing` fails, the loop returns; otherwise the
next read result is processed exactly as in the source (note that the
`-2` branch fires `_onExit` and `break`s without touching `_closing`).
Payload bookkeeping of the shared buffer is covered by `runLoop`; here the
fired payload is the bytes of the read. -/
def stepLoop (e : Engine) (s : Sys) : Sys :=
  if ¬ s.loopLive then s
  else if ¬ (s.ts.readLoop && !s.ts.closing) then { s with loopLive := false }
  else
    match s.pending with
    | [] => s
    | r :: rest =>
      if 0 < r.n then
        { s with pending := rest, events := s.events ++ [Event.data r.written] }
      else if r.n = -2 then
        { s with pending := rest,
                 events := s.events ++ [Event.exit e.getExitCode none],
                 loopLive := false }
      else if r.n < 0 then
        { s with pending := rest, loopLive := false }
      else
        { s with pending := rest }

/-- The caller invoking `kill(signal)` (src/terminal.ts:232-238) inside an
interleaving: guarded by `_closing`, and firing
`_onExit` with `{ exitCode: 0, signal }` when it proceeds. -/
def stepKill (signal : String) (s : Sys) : Sys :=
  if s.ts.closing then s
  else { s with ts := { s.ts with closing := true },
                events := s.events ++ [Event.exit 0 (some signal)] }

/-- Run a sequence of scheduler actions. -/
def runActs (e : Engine) : List SchedAct → Sys → Sys
  | [], s => s
  | SchedAct.loopIter :: rest, s => runActs e rest (stepLoop e s)
  | SchedAct.killCall sig :: rest, s => runActs e rest (stepKill sig s)

/-- How many exit events a fired-event list contains. -/
def exitEventCount (evs : List Event) : Nat :=
  (evs.filter fun ev => match ev with
    | Event.exit _ _ => true
    | _ => false).length

/-! ## Quoting round-trip lemmas -/

/-- A character that is not in the `quoteArg` class differs from any that
is. -/
theorem ne_of_not_special {c x : Char} (h : isSpecialChar c = false)
    (hx : isSpecialChar x = true) : c ≠ x := by
  intro he
  rw [he, hx] at h
  exact Bool.noConfusion h

/-- Characters outside the `quoteArg` class are inert for the shell
scanner: they are appended verbatim to the current field, and the
field's tilde-expansion mark is unchanged. -/
theorem shellSplit_plain_chars :
    ∀ (g : List Char), containsSpecial g = false →
      ∀ (s a : List Char) (b : Bool),
        shellSplit (g ++ s) SMode.norm (some (a, b)) =
          shellSplit s SMode.norm (some (a ++ g, b)) := by
  intro g
  induction g with
  | nil => intro _ s a b; simp
  | cons c cs ih =>
    intro hg s a b
    have hstep : (isSpecialChar c || containsSpecial cs) = false := by
      simpa [containsSpecial] using hg
    have hc : isSpecialChar c = false := (Bool.or_eq_false_iff.mp hstep).1
    have hcs : containsSpecial cs = false := (Bool.or_eq_false_iff.mp hstep).2
    have hns : ¬ (c = ' ' ∨ c = '\t' ∨ c = '\n') := by
      rintro (he | he | he) <;> exact ne_of_not_special hc (by decide) he
    have hq : ¬ c = '\'' := ne_of_not_special hc (by decide)
    have hdq : ¬ c = '"' := ne_of_not_special hc (by decide)
    have hbs : ¬ c = '\\' := ne_of_not_special hc (by decide)
    rw [List.cons_append, shellSplit]
    rw [if_neg hns, if_neg hq, if_neg hdq, if_neg hbs]
    simp only [pushNorm]
    rw [ih hcs s (a ++ [c]) b]
    simp

/-- Scanning the escaped body of a single-quoted argument up to its
closing quote recovers the argument verbatim into the current field,
leaving the field's tilde-expansion mark untouched. -/
theorem shellSplit_escaped :
    ∀ (g s a : List Char) (b : Bool),
      shellSplit (escapeQuotes g ++ ('\'' :: s)) SMode.single (some (a, b)) =
        shellSplit s SMode.norm (some (a ++ g, b)) := by
  intro g
  induction g with
  | nil => intro s a b; simp [escapeQuotes, shellSplit]
  | cons c cs ih =>
    intro s a b
    by_cases hc : c = '\''
    · subst hc
      show shellSplit
          ('\'' :: '\\' :: '\'' :: '\'' :: (escapeQuotes cs ++ ('\'' :: s)))
          SMode.single (some (a, b)) = _
      rw [shellSplit]
      simp only [if_pos rfl]
      rw [shellSplit]
      simp only [shellSplit, startField, pushQuoted]
      rw [ih s (a ++ ['\'']) b]
      simp
    · rw [show escapeQuotes (c :: cs) = c :: escapeQuotes cs by
        rw [escapeQuotes, if_neg hc]]
      rw [List.cons_append, shellSplit, if_neg hc]
      simp only [pushQuoted]
      rw [ih s (a ++ [c]) b]
      simp

/-- Scanning one quoted argument: the shell recovers exactly the original
argument as the next field, whether or not `quoteArg` quoted it, and the
field is not marked for tilde expansion — a quoted argument starts with
the opening quote, an unquoted one is hypothesised not to start with a
tilde. -/
theorem shellSplit_word (g : List Char) (hg : g ≠ [])
    (hnt : containsSpecial g = false → g.head? ≠ some '~') (tl : List Char) :
    shellSplit (quoteArg g ++ tl) SMode.norm none =
      shellSplit tl SMode.norm (some (g, false)) := by
  by_cases hsp : containsSpecial g
  · rw [show quoteArg g = '\'' :: (escapeQuotes g ++ ['\'']) by
      rw [quoteArg, if_pos hsp]]
    rw [List.cons_append, shellSplit]
    simp only [if_pos rfl, startField, List.append_assoc,
      List.singleton_append]
    rw [shellSplit_escaped g tl [] false]
    simp
  · rw [show quoteArg g = g by rw [quoteArg, if_neg hsp]]
    have hfalse : containsSpecial g = false := Bool.eq_false_iff.mpr hsp
    have hh : g.head? ≠ some '~' := hnt hfalse
    obtain ⟨c, g', rfl⟩ := List.exists_cons_of_ne_nil hg
    have hstep : (isSpecialChar c || containsSpecial g') = false := by
      simpa [containsSpecial] using hfalse
    have hc : isSpecialChar c = false := (Bool.or_eq_false_iff.mp hstep).1
    have hcs : containsSpecial g' = false := (Bool.or_eq_false_iff.mp hstep).2
    have hns : ¬ (c = ' ' ∨ c = '\t' ∨ c = '\n') := by
      rintro (he | he | he) <;> exact ne_of_not_special hc (by decide) he
    have hq : ¬ c = '\'' := ne_of_not_special hc (by decide)
    have hdq : ¬ c = '"' := ne_of_not_special hc (by decide)
    have hbs : ¬ c = '\\' := ne_of_not_special hc (by decide)
    have htc : c ≠ '~' := by
      intro he
      exact hh (by rw [he]; rfl)
    have htb : (c == '~') = false := by simp [htc]
    rw [List.cons_append, shellSplit]
    rw [if_neg hns, if_neg hq, if_neg hdq, if_neg hbs]
    simp only [pushNorm, htb]
    rw [shellSplit_plain_chars g' hcs tl [c] false]
    simp

/-- Scanning the space-separated quoted arguments after an already
completed first field yields that field followed by the original
arguments, none of them marked for tilde expansion. -/
theorem shellSplit_args :
    ∀ (args : List (List Char)), (∀ g ∈ args, g ≠ []) →
      (∀ g ∈ args, containsSpecial g = false → g.head? ≠ some '~') →
      ∀ (w : List Char) (b : Bool),
        shellSplit ((args.map (fun g => ' ' :: quoteArg g)).flatten)
            SMode.norm (some (w, b)) =
          some ((w, b) :: args.map (fun g => (g, false))) := by
  intro args
  induction args with
  | nil => intro _ _ w b; simp [shellSplit]
  | cons g rest ih =>
    intro hne hnt w b
    have hg : g ≠ [] := hne g (by simp)
    have hgt : containsSpecial g = false → g.head? ≠ some '~' :=
      hnt g (by simp)
    have hrest : ∀ x ∈ rest, x ≠ [] := fun x hx => hne x (by simp [hx])
    have hrt : ∀ x ∈ rest, containsSpecial x = false → x.head? ≠ some '~' :=
      fun x hx => hnt x (by simp [hx])
    simp only [List.map_cons, List.flatten_cons, List.cons_append,
      List.append_assoc]
    rw [shellSplit]
    simp only [if_pos (Or.inl rfl)]
    rw [shellSplit_word g hg hgt, ih hrest hrt g false]
    rfl

/-- `join(" ")` of a nonempty list, re-expressed as the head followed by
space-prefixed tail entries. -/
theorem intercalate_space (x : List Char) (xs : List (List Char)) :
    List.intercalate [' '] (x :: xs) = x ++ (xs.map (fun g => ' ' :: g)).flatten := by
  induction xs generalizing x with
  | nil => simp [List.intercalate]
  | cons y ys ih =>
    have h := ih y
    rw [List.intercalate] at h ⊢
    rw [List.intersperse_cons_cons]
    simp only [List.flatten_cons, List.map_cons]
    rw [h]
    simp

/-- Round trip: for a program name free of special characters, nonempty
and not tilde-initial, and nonempty arguments that are not tilde-initial
when unquoted, the shell's word-level processing (field splitting, quote
removal, tilde expansion under any home assignment) maps the
constructor's command line back to exactly the original program name and
argument values. -/
theorem cmdline_fields (file : List Char) (hfs : containsSpecial file = false)
    (hfe : file ≠ []) (hft : file.head? ≠ some '~')
    (args : List (List Char)) (hargs : ∀ g ∈ args, g ≠ [])
    (htil : ∀ g ∈ args, containsSpecial g = false → g.head? ≠ some '~')
    (home : List Char) (userHome : List Char → Option (List Char)) :
    shellWords home userHome (cmdlineOf file args) = some (file :: args) := by
  have hsplit : shellSplit (cmdlineOf file args) SMode.norm none =
      some ((file, false) :: args.map (fun g => (g, false))) := by
    rw [cmdlineOf, intercalate_space]
    rw [show (args.map quoteArg).map (fun g => ' ' :: g) =
        args.map (fun g => ' ' :: quoteArg g) by rw [List.map_map]; rfl]
    obtain ⟨c, f', rfl⟩ := List.exists_cons_of_ne_nil hfe
    have hstep : (isSpecialChar c || containsSpecial f') = false := by
      simpa [containsSpecial] using hfs
    have hc : isSpecialChar c = false := (Bool.or_eq_false_iff.mp hstep).1
    have hcs : containsSpecial f' = false := (Bool.or_eq_false_iff.mp hstep).2
    have hns : ¬ (c = ' ' ∨ c = '\t' ∨ c = '\n') := by
      rintro (he | he | he) <;> exact ne_of_not_special hc (by decide) he
    have hq : ¬ c = '\'' := ne_of_not_special hc (by decide)
    have hdq : ¬ c = '"' := ne_of_not_special hc (by decide)
    have hbs : ¬ c = '\\' := ne_of_not_special hc (by decide)
    have htc : c ≠ '~' := by
      intro he
      exact hft (by rw [he]; rfl)
    have htb : (c == '~') = false := by simp [htc]
    rw [List.cons_append, shellSplit]
    rw [if_neg hns, if_neg hq, if_neg hdq, if_neg hbs]
    simp only [pushNorm, htb]
    rw [shellSplit_plain_chars f' hcs _ [c] false]
    simp only [List.singleton_append]
    rw [shellSplit_args args hargs htil (c :: f') false]
  rw [shellWords, hsplit]
  simp only [Option.map_some', List.map_cons, List.map_map]
  have hid : (expandField home userHome ∘ fun g => (g, false)) =
      fun g : List Char => g := by
    funext g
    simp [expandField, Function.comp]
  rw [show expandField home userHome (file, false) = file from rfl, hid,
    List.map_id']

/-! ## Read-loop lemmas -/

/-- A run over reads that are all non-terminal (`n ≥ 0`) composes with the
run over the remaining trace from the resulting buffer. -/
theorem runLoop_append (e : Engine) (hd : Int) :
    ∀ (pre : List ReadStep), (∀ t ∈ pre, 0 ≤ t.n) →
      ∀ (rest : List ReadStep) (buf : List Nat),
        runLoop e hd (pre ++ rest) buf =
          { events := (runLoop e hd pre buf).events ++
              (runLoop e hd rest (runLoop e hd pre buf).buf).events,
            calls := (runLoop e hd pre buf).calls ++
              (runLoop e hd rest (runLoop e hd pre buf).buf).calls,
            buf := (runLoop e hd rest (runLoop e hd pre buf).buf).buf,
            stopped := (runLoop e hd rest (runLoop e hd pre buf).buf).stopped } := by
  intro pre
  induction pre with
  | nil => intro _ rest buf; simp [runLoop]
  | cons s pre' ih =>
    intro hpre rest buf
    have hs : 0 ≤ s.n := hpre s (by simp)
    have hp' : ∀ t ∈ pre', 0 ≤ t.n := fun t ht => hpre t (by simp [ht])
    by_cases hpos : 0 < s.n
    · simp only [List.cons_append, runLoop, if_pos hpos, List.append_eq]
      rw [ih hp' rest (writeBuf s.written buf)]
    · have hz : s.n = 0 := le_antisymm (not_lt.mp hpos) hs
      have h2 : ¬ s.n = -2 := by rw [hz]; decide
      have h3 : ¬ s.n < 0 := by rw [hz]; decide
      simp only [List.cons_append, runLoop, if_neg hpos, if_neg h2, if_neg h3,
        List.append_eq]
      rw [ih hp' rest buf]

/-- A run over non-terminal reads fires only data events. -/
theorem runLoop_nonterm_data (e : Engine) (hd : Int) :
    ∀ (trace : List ReadStep), (∀ t ∈ trace, 0 ≤ t.n) →
      ∀ (buf : List Nat), ∀ ev ∈ (runLoop e hd trace buf).events,
        ∃ p, ev = Event.data p := by
  intro trace
  induction trace with
  | nil => intro _ buf ev hev; simp [runLoop] at hev
  | cons s rest ih =>
    intro htr buf ev hev
    have hs : 0 ≤ s.n := htr s (by simp)
    have hr : ∀ t ∈ rest, 0 ≤ t.n := fun t ht => htr t (by simp [ht])
    by_cases hpos : 0 < s.n
    · rw [runLoop, if_pos hpos] at hev
      simp only [List.mem_cons] at hev
      rcases hev with rfl | hev
      · exact ⟨_, rfl⟩
      · exact ih hr _ ev hev
    · have hz : s.n = 0 := le_antisymm (not_lt.mp hpos) hs
      have h2 : ¬ s.n = -2 := by rw [hz]; decide
      have h3 : ¬ s.n < 0 := by rw [hz]; decide
      rw [runLoop, if_neg hpos, if_neg h2, if_neg h3] at hev
      exact ih hr _ ev hev


/-! ## Claim theorems -/

/-- C1: for every session whose read loop observes the exit sentinel (read
returning -2), the single exit event delivered to `onExit` carries exactly
the status fetched from the engine via `get_exit_code` at that moment
(modelled as the engine's recorded OS termination status), never a
hardcoded 0; the call trace shows `get_exit_code` being consulted.  In
particular a child that exited with status 1 is reported with exitCode 1
(see the witness). -/
theorem readLoop_reports_engine_exit_code (e : Engine) (hd : Int)
    (pre : List ReadStep) (hpre : ∀ t ∈ pre, 0 ≤ t.n) (w : List Nat)
    (post : List ReadStep) (buf : List Nat) :
    (runLoop e hd (pre ++ { n := -2, written := w } :: post) buf).events =
      (runLoop e hd pre buf).events ++ [Event.exit e.getExitCode none] ∧
    (runLoop e hd (pre ++ { n := -2, written := w } :: post) buf).calls =
      (runLoop e hd pre buf).calls ++
        [EngineCall.read hd, EngineCall.getExitCode hd] ∧
    e.getExitCode = e.childExitStatus := by
  rw [runLoop_append e hd pre hpre ({ n := -2, written := w } :: post) buf]
  rw [show runLoop e hd ({ n := -2, written := w } :: post)
        (runLoop e hd pre buf).buf =
      { events := [Event.exit e.getExitCode none],
        calls := [EngineCall.read hd, EngineCall.getExitCode hd],
        buf := (runLoop e hd pre buf).buf, stopped := true } by
    norm_num [runLoop]]
  exact ⟨rfl, rfl, rfl⟩

/-- Witness for C1: a child whose OS status is 1 is reported as exitCode 1,
not 0. -/
theorem readLoop_reports_engine_exit_code_witness :
    (runLoop { childExited := true, childExitStatus := 1 } 0
        [{ n := -2, written := [] }] []).events = [Event.exit 1 none] := by
  exact (readLoop_reports_engine_exit_code
    { childExited := true, childExitStatus := 1 } 0 [] (by simp) [] [] []).1

/-- C2 (code bug): the exit event is NOT reported at most once.  In the
interleaving in which the read loop observes the -2 sentinel (firing
`onExit` with the engine's status and merely `break`ing, leaving
`_closing` false) and the caller then invokes `kill()`, the guard in
`kill()` passes and a second exit event `{ exitCode: 0, signal }` is
fired: two exit events in one session's lifetime. -/
theorem kill_after_sentinel_fires_second_exit :
    (runActs { childExited := true, childExitStatus := 1 }
        [SchedAct.loopIter, SchedAct.killCall "SIGTERM"]
        { ts := { handle := 0, pid := 42, cols := 80, rows := 24,
                  readLoop := true, closing := false },
          pending := [{ n := -2, written := [] }],
          events := [], loopLive := true }).events =
      [Event.exit 1 none, Event.exit 0 (some "SIGTERM")] ∧
    exitEventCount (runActs { childExited := true, childExitStatus := 1 }
        [SchedAct.loopIter, SchedAct.killCall "SIGTERM"]
        { ts := { handle := 0, pid := 42, cols := 80, rows := 24,
                  readLoop := true, closing := false },
          pending := [{ n := -2, written := [] }],
          events := [], loopLive := true }).events = 2 := by decide

/-- C3 (code bug): `resize` does not validate: a `resize(0, 10)` call on a
live 80×24 session stores the invalid dimensions into `_cols`/`_rows`
(the `cols` accessor now returns 0) and forwards them to the engine,
instead of rejecting the request and leaving the recorded size
unchanged. -/
theorem resize_stores_invalid_dimensions :
    Terminal.resize 0 10
        { handle := 3, pid := 42, cols := 80, rows := 24,
          readLoop := true, closing := false } =
      ({ handle := 3, pid := 42, cols := 0, rows := 10,
         readLoop := true, closing := false },
       [EngineCall.resize 3 0 10]) ∧
    (Terminal.resize 0 10
        { handle := 3, pid := 42, cols := 80, rows := 24,
          readLoop := true, closing := false }).1.cols ≠ 80 := by decide

/-- C4: a `write(data)` issued after the session has exited — `_closing`
set by `kill()`, or the child observed dead (the state in which the read
loop receives the -2 sentinel), where the spec-modelled engine write is a
no-op — delivers no bytes, leaves the `Terminal` state unchanged, and
raises no error (the model is total; the source ignores the FFI return
value). -/
theorem write_after_exit_is_noop (e : Engine) (data : List Nat)
    (t : Terminal) (h : t.closing = true ∨ e.childExited = true) :
    Terminal.write e data t = (t, []) := by
  rcases h with h | h
  · rw [Terminal.write, if_pos h]
  · by_cases hc : t.closing = true
    · rw [Terminal.write, if_pos hc]
    · rw [Terminal.write, if_neg hc, Engine.writeDelivered, if_pos h]

/-- Witness for C4: a concrete write after the child exited delivers
nothing and changes nothing. -/
theorem write_after_exit_is_noop_witness :
    Terminal.write { childExited := true, childExitStatus := 1 } [104, 105]
        { handle := 0, pid := 42, cols := 80, rows := 24,
          readLoop := true, closing := false } =
      ({ handle := 0, pid := 42, cols := 80, rows := 24,
         readLoop := true, closing := false }, []) :=
  write_after_exit_is_noop _ _ _ (Or.inr rfl)

/-- C5: when the engine returns a negative handle from `bun_pty_spawn`,
the constructor throws `PTY spawn failed` (no usable instance is
returned), never calls `bun_pty_get_pid`, and never starts the read
loop. -/
theorem spawn_failure_throws (eng : SpawnEngine) (processCwd : List Char)
    (fileArg : Option (List Char)) (args : List (List Char))
    (opts : SpawnOpts) (h : eng.spawnResult < 0) :
    (Terminal.construct eng processCwd fileArg args opts).outcome =
      Except.error "PTY spawn failed" ∧
    (Terminal.construct eng processCwd fileArg args opts).loopStarted = false ∧
    ∀ hdl, EngineCall.getPid hdl ∉
      (Terminal.construct eng processCwd fileArg args opts).calls := by
  refine ⟨?_, ?_, ?_⟩ <;> simp [Terminal.construct, h]

/-- Witness for C5: a spawn returning -1 makes the constructor throw. -/
theorem spawn_failure_throws_witness :
    (Terminal.construct { spawnResult := -1, pidResult := 7 } ['/'] none []
        { name := "xterm", cols := none, rows := none, cwd := none }).outcome =
      Except.error "PTY spawn failed" :=
  (spawn_failure_throws _ _ _ _ _ (by decide)).1

/-- C6 counterexample: the claim's consequence "the spawned program
receives the exact argument values" fails on the code at three concrete
inputs.  (a) An empty-string argument contains no character of the class,
is passed through unchanged, and is then dropped by field splitting:
`printf %s ""` reaches the program as `printf %s`.  (b) A tilde is not in
the class either, so `~/x` is passed unquoted and the shell's tilde
expansion (home directory `/root`) delivers `/root/x`, not `~/x`.  (c) A
program name containing a space is joined unquoted, so it splits into two
words and shifts every argument: `my prog a` becomes program `my` with
arguments `prog a`. -/
theorem quoting_not_exact :
    (quoteArg ([] : List Char) = ([] : List Char) ∧
     shellWords (String.toList "/root") (fun _ => none)
        (cmdlineOf (String.toList "printf") [String.toList "%s", []]) =
      some [String.toList "printf", String.toList "%s"] ∧
     [String.toList "printf", String.toList "%s"] ≠
      [String.toList "printf", String.toList "%s", ([] : List Char)]) ∧
    (quoteArg (String.toList "~/x") = String.toList "~/x" ∧
     shellWords (String.toList "/root") (fun _ => none)
        (cmdlineOf (String.toList "ls") [String.toList "~/x"]) =
      some [String.toList "ls", String.toList "/root/x"] ∧
     String.toList "/root/x" ≠ String.toList "~/x") ∧
    (shellWords (String.toList "/root") (fun _ => none)
        (cmdlineOf (String.toList "my prog") [String.toList "a"]) =
      some [String.toList "my", String.toList "prog", String.toList "a"] ∧
     [String.toList "my", String.toList "prog", String.toList "a"] ≠
      [String.toList "my prog", String.toList "a"]) := by
  decide

/-- C6 (amended): every argument containing whitespace, quotes, or shell
metacharacters is wrapped in single quotes with every embedded single
quote escaped as apostrophe-backslash-apostrophe-apostrophe, and
arguments containing none of those characters pass through unchanged.
For every argument list whose arguments are all non-empty and, when they
contain none of those characters (and so travel unquoted), do not begin
with a tilde — under a program name that is itself non-empty, free of
those characters and not tilde-initial — the shell's word-level
processing (field splitting, quote removal, and tilde expansion under any
home-directory assignment) delivers to the spawned program exactly the
original argument values.  An empty argument is dropped, a tilde-initial
unquoted argument is rewritten by tilde expansion, and a program name
containing a metacharacter shifts the argument vector (see the
counterexample). -/
theorem quoting_roundtrip_plain_words (home : List Char)
    (userHome : List Char → Option (List Char)) (file : List Char)
    (args : List (List Char)) (hfs : containsSpecial file = false)
    (hfe : file ≠ []) (hft : file.head? ≠ some '~')
    (hargs : ∀ g ∈ args, g ≠ [])
    (htil : ∀ g ∈ args, containsSpecial g = false → g.head? ≠ some '~') :
    shellWords home userHome (cmdlineOf file args) = some (file :: args) ∧
    (∀ g, containsSpecial g = true →
        quoteArg g = '\'' :: (escapeQuotes g ++ ['\''])) ∧
    (∀ g, containsSpecial g = false → quoteArg g = g) := by
  refine ⟨cmdline_fields file hfs hfe hft args hargs htil home userHome,
    ?_, ?_⟩
  · intro g hg; rw [quoteArg, if_pos hg]
  · intro g hg; rw [quoteArg, if_neg (by simp [hg])]

/-- Witness for C6 (amended): a command line with a spaced argument and an
embedded single quote round-trips exactly under a concrete home
directory. -/
theorem quoting_roundtrip_plain_words_witness :
    shellWords (String.toList "/root") (fun _ => none)
        (cmdlineOf (String.toList "bash")
          [String.toList "-c", String.toList "echo it's $X"]) =
      some [String.toList "bash", String.toList "-c",
            String.toList "echo it's $X"] :=
  (quoting_roundtrip_plain_words (String.toList "/root") (fun _ => none)
    (String.toList "bash") [String.toList "-c", String.toList "echo it's $X"]
    (by decide) (by decide) (by decide) (by decide) (by decide)).1

/-- C7: over any sequence of read-loop iterations on a live session, each
read returning `n > 0` (the engine having copied exactly `n` bytes into
the buffer) fires exactly one `onData` event whose payload — the bytes
handed to the UTF-8 decoder by `buf.subarray(0, n).toString("utf8")` — is
precisely those `n` bytes, no more (stale buffer bytes from earlier longer
reads are excluded) and no fewer, and the events appear in exactly the
order of the reads that produced them. -/
theorem onData_payload_exact (e : Engine) (hd : Int) :
    ∀ (trace : List ReadStep), (∀ t ∈ trace, 0 ≤ t.n) →
      (∀ t ∈ trace, 0 < t.n → t.written.length = t.n.toNat) →
      ∀ (buf : List Nat),
        (runLoop e hd trace buf).events =
          trace.filterMap (fun t =>
            if 0 < t.n then some (Event.data t.written) else none) := by
  intro trace
  induction trace with
  | nil => intro _ _ buf; simp [runLoop]
  | cons s rest ih =>
    intro h0 hlen buf
    have hs : 0 ≤ s.n := h0 s (by simp)
    have hr0 : ∀ t ∈ rest, 0 ≤ t.n := fun t ht => h0 t (by simp [ht])
    have hrlen : ∀ t ∈ rest, 0 < t.n → t.written.length = t.n.toNat :=
      fun t ht => hlen t (by simp [ht])
    by_cases hpos : 0 < s.n
    · have hw : s.written.length = s.n.toNat := hlen s (by simp) hpos
      simp only [runLoop, if_pos hpos, List.filterMap_cons]
      rw [ih hr0 hrlen]
      rw [show (writeBuf s.written buf).take s.n.toNat = s.written by
        rw [writeBuf, ← hw, List.take_left]]
    · have hz : s.n = 0 := le_antisymm (not_lt.mp hpos) hs
      have h2 : ¬ s.n = -2 := by rw [hz]; decide
      have h3 : ¬ s.n < 0 := by rw [hz]; decide
      simp only [runLoop, if_neg hpos, if_neg h2, if_neg h3,
        List.filterMap_cons]
      rw [ih hr0 hrlen]

/-- Witness for C7: two data reads around an empty poll fire exactly the
two chunks, in order, out of a 4096-byte buffer. -/
theorem onData_payload_exact_witness :
    (runLoop { childExited := false, childExitStatus := 0 } 0
        [{ n := 2, written := [104, 105] }, { n := 0, written := [] },
         { n := 1, written := [33] }] (List.replicate 4096 0)).events =
      [Event.data [104, 105], Event.data [33]] := by
  rw [onData_payload_exact { childExited := false, childExitStatus := 0 } 0
    [{ n := 2, written := [104, 105] }, { n := 0, written := [] },
     { n := 1, written := [33] }] (by decide) (by decide)
    (List.replicate 4096 0)]
  decide

/-- C8: a read returning a negative value other than the -2 sentinel stops
the loop permanently — the run over the whole trace issues exactly the
reads up to and including the failing one (nothing from `post`), fires no
event beyond the data events of the prefix (in particular no exit event:
every event of the prefix run is a data event), and the loop has
terminated — whereas a read returning 0 is transient: the loop issues
that read and continues with the rest of the trace, unterminated. -/
theorem read_error_stops_loop (e : Engine) (hd : Int) (pre : List ReadStep)
    (hpre : ∀ t ∈ pre, 0 ≤ t.n) (s : ReadStep) (hneg : s.n < 0)
    (hns : s.n ≠ -2) (post : List ReadStep) (buf : List Nat) :
    runLoop e hd (pre ++ s :: post) buf =
      { events := (runLoop e hd pre buf).events,
        calls := (runLoop e hd pre buf).calls ++ [EngineCall.read hd],
        buf := (runLoop e hd pre buf).buf,
        stopped := true } ∧
    (∀ ev ∈ (runLoop e hd pre buf).events, ∃ p, ev = Event.data p) ∧
    (∀ (z : ReadStep), z.n = 0 → ∀ (rest : List ReadStep) (b : List Nat),
        runLoop e hd (z :: rest) b =
          { events := (runLoop e hd rest b).events,
            calls := EngineCall.read hd :: (runLoop e hd rest b).calls,
            buf := (runLoop e hd rest b).buf,
            stopped := (runLoop e hd rest b).stopped }) := by
  refine ⟨?_, runLoop_nonterm_data e hd pre hpre buf, ?_⟩
  · rw [runLoop_append e hd pre hpre (s :: post) buf]
    have hnp : ¬ 0 < s.n := not_lt.mpr (le_of_lt hneg)
    rw [show runLoop e hd (s :: post) (runLoop e hd pre buf).buf =
        { events := [], calls := [EngineCall.read hd],
          buf := (runLoop e hd pre buf).buf, stopped := true } by
      rw [runLoop, if_neg hnp, if_neg hns, if_pos hneg]]
    simp
  · intro z hz rest b
    have hnp : ¬ 0 < z.n := by rw [hz]; decide
    have h2 : ¬ z.n = -2 := by rw [hz]; decide
    have h3 : ¬ z.n < 0 := by rw [hz]; decide
    rw [runLoop, if_neg hnp, if_neg h2, if_neg h3]

/-- Witness for C8: after one data read, a -1 read stops the loop; the
later pending read is never issued and no further event fires. -/
theorem read_error_stops_loop_witness :
    runLoop { childExited := false, childExitStatus := 0 } 0
        ([{ n := 1, written := [7] }] ++ { n := -1, written := [] } ::
          [{ n := 9, written := [8] }]) [0, 0] =
      { events := [Event.data [7]],
        calls := [EngineCall.read 0, EngineCall.read 0],
        buf := [7, 0], stopped := true } := by
  rw [(read_error_stops_loop { childExited := false, childExitStatus := 0 }
    0 [{ n := 1, written := [7] }] (by decide) { n := -1, written := [] }
    (by decide) (by decide) [{ n := 9, written := [8] }] [0, 0]).1]
  decide

/-- C9: `kill()` is idempotent: a second `kill()` on the state produced by
a first `kill()` performs no engine call (no second `bun_pty_kill` or
`bun_pty_close`), fires no additional exit event, and leaves the state
exactly as the first call left it. -/
theorem kill_idempotent (sig sig' : String) (t : Terminal) :
    Terminal.kill sig' (Terminal.kill sig t).1 =
      ((Terminal.kill sig t).1, [], []) := by
  by_cases h : t.closing = true <;> simp [Terminal.kill, h]

/-- C10: with all options omitted the constructor applies the documented
defaults before spawning — command `sh`, 80 columns, 24 rows, and the
calling process's working directory — and the `cols`/`rows` accessors
return exactly these values (or the explicitly supplied ones); `write`
and `kill` never change `cols`/`rows`, so they hold until the first
`resize`. -/
theorem constructor_defaults (eng : SpawnEngine) (pcwd : List Char)
    (args : List (List Char)) (nm : String) (h : 0 ≤ eng.spawnResult) :
    (Terminal.construct eng pcwd none args
        { name := nm, cols := none, rows := none, cwd := none }).outcome =
      Except.ok { handle := eng.spawnResult, pid := eng.pidResult,
                  cols := DEFAULT_COLS, rows := DEFAULT_ROWS,
                  readLoop := true, closing := false } ∧
    (Terminal.construct eng pcwd none args
        { name := nm, cols := none, rows := none, cwd := none }).calls =
      [EngineCall.spawn (cmdlineOf DEFAULT_FILE.toList args) pcwd
        DEFAULT_COLS DEFAULT_ROWS,
       EngineCall.getPid eng.spawnResult] ∧
    (∀ (c r : Int) (cw fl : List Char),
      (Terminal.construct eng pcwd (some fl) args
          { name := nm, cols := some c, rows := some r, cwd := some cw }).outcome =
        Except.ok { handle := eng.spawnResult, pid := eng.pidResult,
                    cols := c, rows := r, readLoop := true,
                    closing := false }) ∧
    (∀ (e : Engine) (d : List Nat) (t : Terminal),
      (Terminal.write e d t).1.cols = t.cols ∧
      (Terminal.write e d t).1.rows = t.rows) ∧
    (∀ (sg : String) (t : Terminal),
      (Terminal.kill sg t).1.cols = t.cols ∧
      (Terminal.kill sg t).1.rows = t.rows) := by
  have h' : ¬ eng.spawnResult < 0 := not_lt.mpr h
  refine ⟨?_, ?_, ?_, ?_, ?_⟩
  · simp [Terminal.construct, h']
  · simp [Terminal.construct, h']
  · intro c r cw fl; simp [Terminal.construct, h']
  · intro e d t; by_cases hc : t.closing = true <;>
      simp [Terminal.write, hc]
  · intro sg t; by_cases hc : t.closing = true <;>
      simp [Terminal.kill, hc]

/-- Witness for C10: a successful spawn with no options yields an instance
whose accessors report the defaults 80 and 24. -/
theorem constructor_defaults_witness :
    (Terminal.construct { spawnResult := 5, pidResult := 99 } ['/'] none []
        { name := "xterm", cols := none, rows := none, cwd := none }).outcome =
      Except.ok { handle := 5, pid := 99, cols := DEFAULT_COLS,
                  rows := DEFAULT_ROWS, readLoop := true,
                  closing := false } :=
  (constructor_defaults { spawnResult := 5, pidResult := 99 } ['/'] []
    "xterm" (by decide)).1
